import Mathlib

/-
Verification of the Matrix container, its reductions, and the TF-IDF
transformer of the retraigo/preprocess repository.

Modelling conventions (shallow embedding of the TypeScript source):

* A typed-array buffer is a `List α` where `α` is the element kind's read
  value type.  JS numbers are idealized as `ℚ` (exact where the claims need
  them), JS bigints as `ℤ`, and fixed-width integer storage as `ZMod (2^w)`.
* Reading a typed array out of range yields JS `undefined`; the value such a
  read coerces to is modelled by the `undef` field of the per-kind operation
  bundle `Ops`.  No proved theorem depends on its value.
* Writing a typed array out of range is a silent no-op, which `List.set`
  already is.  `TypedArray.prototype.set` validates the fit first and throws
  a RangeError otherwise; this is `tset` resp. the `Except` result of
  `setRow`.
* Each dtype's arithmetic is threaded through an explicit `Ops` bundle, the
  analogue of the source's per-dtype dispatch on typed-array kinds.  For a
  fixed-width integer kind, `add` models the read-add-store composite of the
  source's in-place `+=` on a typed array (exact float addition of values
  below 2^33 followed by the store's wraparound), which is addition in
  `ZMod (2^w)`.
-/

set_option maxHeartbeats 1000000

namespace Preprocess

variable {α : Type}

/-- Per-element-kind operation bundle: the source dispatches on the dtype of
the underlying typed array; `zero` is the zero fill of a fresh typed array,
`add`, `mul`, `div` the arithmetic used on read values (with the store's
coercion folded in where the source stores the result back), `ofCount` the
conversion of a row/column count into the kind's arithmetic domain (the
source's `typeof data[0] === "bigint" ? BigInt(n) : n`), and `undef` the
coerced result of an out-of-range read. -/
structure Ops (α : Type) where
  zero : α
  add : α → α → α
  mul : α → α → α
  div : α → α → α
  ofCount : Nat → α
  undef : α

/-- The Matrix container: row-major flat buffer plus row/column counts.
The dtype tag itself is carried by the type parameter `α` and the `Ops`
bundle passed to each operation. -/
structure Matrix (α : Type) where
  nRows : Nat
  nCols : Nat
  data : List α

/-- JS `TypedArray.prototype.slice` with nonnegative arguments:
`slice(s, e)` copies indices `[s, min(e, length))`; an absent end copies to
the end of the array. -/
def jsSlice (l : List α) (s : Nat) (e? : Option Nat) : List α :=
  match e? with
  | some e => (l.take e).drop s
  | none => l.drop s

/-- JS `TypedArray.prototype.set`: copy `src` into `dst` starting at `off`.
JS throws a RangeError when `off + src.length` exceeds `dst.length`; the
no-fit branch here returns `dst` unchanged, and every caller either always
fits (transpose) or surfaces the failure separately (`setRow`). -/
def tset (dst : List α) (off : Nat) (src : List α) : List α :=
  if off + src.length ≤ dst.length then
    dst.take off ++ src ++ dst.drop (off + src.length)
  else dst

/-- `Matrix.item(row, col)`: `data[row * nCols + col]`, no bounds check; an
out-of-range read yields JS undefined, modelled by `K.undef`. -/
def Matrix.item (K : Ops α) (m : Matrix α) (r c : Nat) : α :=
  m.data.getD (r * m.nCols + c) K.undef

/-- `Matrix.row(n)`: `data.slice(n * nCols, (n + 1) * nCols)`, an independent
copy of row `n`. -/
def Matrix.row (m : Matrix α) (n : Nat) : List α :=
  jsSlice m.data (n * m.nCols) (some ((n + 1) * m.nCols))

/-- `Matrix.col(n)` and the body of the `cols()` generator: a fresh length
`nRows` array with `col[i] = data[i * nCols + n]`.  The source assigns each
index exactly once in ascending order, which is this map. -/
def Matrix.colAt (K : Ops α) (m : Matrix α) (n : Nat) : List α :=
  (List.range m.nRows).map (fun i => m.data.getD (i * m.nCols + n) K.undef)

/-- `Matrix.T`: allocate a zero-filled `nRows * nCols` buffer, then for each
column `i` of `cols()` write that column at offset `i * nRows` via
`TypedArray.set`, and wrap the buffer with shape `[nCols, nRows]`. -/
def Matrix.T (K : Ops α) (m : Matrix α) : Matrix α :=
  { nRows := m.nCols, nCols := m.nRows,
    data := (List.range m.nCols).foldl
      (fun acc i => tset acc (i * m.nRows) (m.colAt K i))
      (List.replicate (m.nRows * m.nCols) K.zero) }

/-- `Matrix.setCell(row, col, val)`: `data[row * nCols + col] = val`; the
value is already in storage representation in this model (the JS store
coercion is the identity on the carrier). -/
def Matrix.setCell (m : Matrix α) (r c : Nat) (v : α) : Matrix α :=
  { m with data := m.data.set (r * m.nCols + c) v }

/-- `Matrix.setAdd(row, col, val)`: in-place `data[row * nCols + col] += val`. -/
def Matrix.setAdd (K : Ops α) (m : Matrix α) (r c : Nat) (v : α) : Matrix α :=
  { m with data := (m.data.set (r * m.nCols + c)
      (K.add (m.data.getD (r * m.nCols + c) K.undef) v)) }

/-- `Matrix.setCol(col, val)`: `data[i * nCols + col] = val[i]` for each
`i < nRows`, with no check of `val.length`; reading `val` past its end gives
undefined, coerced on store (`K.undef`). -/
def Matrix.setCol (K : Ops α) (m : Matrix α) (c : Nat) (val : List α) : Matrix α :=
  (List.range m.nRows).foldl
    (fun acc i => { acc with data := acc.data.set (i * m.nCols + c) (val.getD i K.undef) }) m

/-- `Matrix.setRow(row, val)`: `data.set(val, row * nCols)`.  JS validates
the fit and throws a RangeError (leaving the buffer untouched) when
`row * nCols + val.length` exceeds the buffer length.  No comparison of
`val.length` with `nCols` is made. -/
def Matrix.setRow (m : Matrix α) (r : Nat) (val : List α) : Except String (Matrix α) :=
  if r * m.nCols + val.length ≤ m.data.length then
    .ok { m with data := tset m.data (r * m.nCols) val }
  else .error "RangeError: offset is out of bounds"

/-- `Matrix.rowSum()`: a fresh zero array of length `nCols`; for each row
`i` (offset `i * nCols`) and column `j`, `sum[j] += data[offset + j]`. -/
def Matrix.rowSum (K : Ops α) (m : Matrix α) : List α :=
  (List.range m.nRows).foldl
    (fun sum i =>
      (List.range m.nCols).foldl
        (fun s j => s.set j (K.add (s.getD j K.undef) (m.data.getD (i * m.nCols + j) K.undef)))
        sum)
    (List.replicate m.nCols K.zero)

/-- `Matrix.colSum()`: a fresh zero array of length `nRows`; outer loop `i`
over columns, inner loop `j` over rows, `sum[j] = sum[j] + item(j, i)`. -/
def Matrix.colSum (K : Ops α) (m : Matrix α) : List α :=
  (List.range m.nCols).foldl
    (fun sum i =>
      (List.range m.nRows).foldl
        (fun s j => s.set j (K.add (s.getD j K.undef) (m.item K j i)))
        sum)
    (List.replicate m.nRows K.zero)

/-- `Matrix.rowMean()`: `rowSum()` divided in place, entry by entry, by the
row count taken in the kind's arithmetic domain: the source computes the
divisor as `typeof data[0] === "bigint" ? BigInt(nRows) : nRows`, which for a
non-empty buffer is exactly `K.ofCount nRows` (for an empty wide-kind buffer
the JS code would instead throw a TypeError on the first division; that case
is outside every claim and not modelled). -/
def Matrix.rowMean (K : Ops α) (m : Matrix α) : List α :=
  let sum := m.rowSum K
  let divisor := K.ofCount m.nRows
  (List.range sum.length).foldl (fun s i => s.set i (K.div (s.getD i K.undef) divisor)) sum

/-- `Matrix.colMean()`: `colSum()` divided entry by entry by `nCols` taken in
the kind's arithmetic domain (same divisor construction as `rowMean`). -/
def Matrix.colMean (K : Ops α) (m : Matrix α) : List α :=
  let sum := m.colSum K
  let divisor := K.ofCount m.nCols
  (List.range sum.length).foldl (fun s i => s.set i (K.div (s.getD i K.undef) divisor)) sum

/-- `Matrix.dot(rhs)`: row counts then column counts are compared, each
mismatch throwing; otherwise `res` starts at the domain's zero
(`typeof data[0] === "bigint" ? 0n : 0`) and the outer loop runs over columns
`j`, the inner loop over rows `i`, accumulating `item(i,j) * rhs.item(i,j)`. -/
def Matrix.dot (K : Ops α) (m rhs : Matrix α) : Except String α :=
  if rhs.nRows ≠ m.nRows then .error "Matrices must have equal rows."
  else if rhs.nCols ≠ m.nCols then .error "Matrices must have equal cols."
  else .ok ((List.range m.nCols).foldl
    (fun res j => (List.range m.nRows).foldl
      (fun r i => K.add r (K.mul (m.item K i j) (rhs.item K i j))) res)
    K.zero)

/-- `Matrix.slice(start, end)`: the buffer is sliced with
`data.slice(start ? start * nCols : 0, end ? end * nCols : undefined)` and
rewrapped with shape `[end ? end - start : nRows - start, nCols]`.  A passed
`end` of 0 is falsy in JS, so both conditionals take the omitted-end branch.
Row counts use Nat subtraction; the JS negative-count case (start beyond the
chosen end) is outside every claim. -/
def Matrix.slice (m : Matrix α) (start : Nat) (stop? : Option Nat) : Matrix α :=
  let stopArg : Option Nat := match stop? with
    | some e => if e = 0 then none else some (e * m.nCols)
    | none => none
  { nRows := match stop? with
      | some e => if e = 0 then m.nRows - start else e - start
      | none => m.nRows - start,
    nCols := m.nCols,
    data := jsSlice m.data (if start = 0 then 0 else start * m.nCols) stopArg }

/-- The four recognized first-argument shapes of `new Matrix(...)`, resolved
in the source by runtime inspection: a typed array (`ArrayBuffer.isView`), a
dtype string, nested value rows (`Array.isArray`, with the values already
converted to the storage carrier; `TypedArray.from` preserves length), or a
`MatrixLike` aggregate.  `config.shape` may miss its column entry, and for
the nested mode only the presence of `config.dType` matters. -/
inductive CtorArg (α : Type) where
  | view (data : List α) (shape : Option (Nat × Option Nat))
  | dtypeTag (shape : Option (Nat × Option Nat))
  | nested (rows : List (List α)) (hasDType : Bool)
  | matrixLike (data : List α) (shape : Nat × Option Nat)

/-- The `Matrix` constructor.  When the column count is omitted it is derived
as `data.length / rows` (JS float division; modelled as Nat division, which
agrees whenever `rows` divides the length — the well-shaped case the claims
quantify over).  An empty nested array crashes in JS on `data[0].length`
before the instance exists, modelled as a construction error. -/
def Matrix.make (K : Ops α) : CtorArg α → Except String (Matrix α)
  | .view data shape =>
      match shape with
      | none => .error "Cannot initialize with incomplete shape (n-rows, n-cols)"
      | some (r, c?) =>
          .ok { nRows := r,
                nCols := match c? with | some c => c | none => data.length / r,
                data := data }
  | .dtypeTag shape =>
      match shape with
      | none => .error "Cannot initialize with incomplete shape (n-rows, n-cols)"
      | some (_, none) => .error "Cannot initialize with incomplete shape (n-cols)"
      | some (r, some c) => .ok { nRows := r, nCols := c, data := List.replicate (r * c) K.zero }
  | .nested rows hasDType =>
      if hasDType = false then .error "Cannot initialize without dType."
      else
        match rows with
        | [] => .error "TypeError: data[0] is undefined"
        | r0 :: _ => .ok { nRows := rows.length, nCols := r0.length, data := rows.flatten }
  | .matrixLike data (r, c?) =>
      .ok { nRows := r,
            nCols := match c? with | some c => c | none => data.length / r,
            data := data }

/-- The in-place mutators of the public contract. -/
inductive Mutation (α : Type) where
  | cell (r c : Nat) (v : α)
  | add (r c : Nat) (v : α)
  | rowM (r : Nat) (val : List α)
  | colM (c : Nat) (val : List α)

/-- Apply one mutation; a `setRow` whose source does not fit throws in JS and
leaves the buffer unchanged. -/
def applyMut (K : Ops α) (m : Matrix α) : Mutation α → Matrix α
  | .cell r c v => m.setCell r c v
  | .add r c v => m.setAdd K r c v
  | .rowM r val => (m.setRow r val).toOption.getD m
  | .colM c val => m.setCol K c val

/-- Shape-consistent constructor inputs: the buffer length matches the
declared shape (wrap and MatrixLike modes, with exact divisibility when the
column count is derived) and nested rows are rectangular. -/
def CtorArg.wellShaped : CtorArg α → Prop
  | .view data shape =>
      match shape with
      | some (r, some c) => data.length = r * c
      | some (r, none) => r ≠ 0 ∧ r ∣ data.length
      | none => True
  | .dtypeTag _ => True
  | .nested rows _ => ∀ row ∈ rows, row.length = (rows.headD []).length
  | .matrixLike data (r, c?) =>
      match c? with
      | some c => data.length = r * c
      | none => r ≠ 0 ∧ r ∣ data.length

/-- The TF-IDF transformer state: an optional inverse-document-frequency
vector, absent until `fit` stores one.  Float64 values are idealized as ℚ. -/
structure TfIdfTransformer where
  idf : Option (List ℚ)

/-- The Float64 arithmetic domain (JS numbers idealized as exact rationals;
exact on the integer-valued inputs the claims evaluate). -/
def ratOps : Ops ℚ :=
  { zero := 0, add := (· + ·), mul := (· * ·), div := (· / ·),
    ofCount := fun n => (n : ℚ), undef := 0 }

/-- `multiplyDiags(x, y)`: a result matrix wrapping a zero-filled buffer of
length `x.data.length` with `x.shape`; then for each row `i < x.nRows` and
each `j < y.length` (the loop bound is `y.length`, not `nCols`),
`res.setCell(i, j, x.item(i, j) * y[j])`. -/
def multiplyDiags (K : Ops α) (x : Matrix α) (y : List α) : Matrix α :=
  (List.range x.nRows).foldl
    (fun res i => (List.range y.length).foldl
      (fun r j => r.setCell i j (K.mul (x.item K i j) (y.getD j K.undef))) res)
    { nRows := x.nRows, nCols := x.nCols, data := List.replicate x.data.length K.zero }

/-- `TfIdfTransformer.fit(data)`: `freq = data.rowSum()`, a fresh zero vector
of length `freq.length`, then `idf[i] = log(samples / freq[i]) + 1` for each
`i`, where `samples = data.nRows`; the resulting `idf` is stored on the
transformer, which is returned.  `Math.log` is an opaque JS builtin, passed
here as an explicit function parameter. -/
def TfIdfTransformer.fit (log : ℚ → ℚ) (_t : TfIdfTransformer) (data : Matrix ℚ) :
    TfIdfTransformer :=
  let samples : ℚ := (data.nRows : ℚ)
  let freq := data.rowSum ratOps
  { idf := some ((List.range freq.length).foldl
      (fun l i => l.set i (log (samples / freq.getD i 0) + 1))
      (List.replicate freq.length (0 : ℚ))) }

/-- `TfIdfTransformer.transform(data)`: throws when `idf` is null, otherwise
returns `multiplyDiags(data, idf)`.  The transformer state is returned
alongside to record that `transform` never writes it. -/
def TfIdfTransformer.transform (t : TfIdfTransformer) (data : Matrix ℚ) :
    Except String (Matrix ℚ) × TfIdfTransformer :=
  (match t.idf with
   | none => .error "IDF not initialized yet."
   | some idf => .ok (multiplyDiags ratOps data idf), t)

/-- Unsigned fixed-width integer kinds u8/u16/u32/u64 at width `w`: storage
and read values are `ZMod (2^w)`; `add`/`mul` are the read-compute-store
composites of the in-place updates (wraparound), `div` is float (resp.
bigint) division of the unsigned read values truncated toward zero by the
store, and `ofCount` is the count taken in the kind's domain (`BigInt(n)` for
u64; exact for every count below 2^w). -/
def uintOps (w : Nat) : Ops (ZMod (2 ^ w)) :=
  { zero := 0, add := (· + ·), mul := (· * ·),
    div := fun a b => ((a.val / b.val : Nat) : ZMod (2 ^ w)),
    ofCount := fun n => (n : ZMod (2 ^ w)), undef := 0 }

/-- Signed read value of a stored `w`-bit pattern. -/
def sval (w : Nat) (a : ZMod (2 ^ w)) : Int :=
  if a.val < 2 ^ (w - 1) then (a.val : Int) else (a.val : Int) - (2 ^ w : Nat)

/-- Signed fixed-width integer kinds i8/i16/i32/i64 at width `w`: same
wraparound additive structure on the stored bit patterns, with division
performed on the signed read values and truncated toward zero (JS number
division plus ToInteger, resp. bigint division). -/
def sintOps (w : Nat) : Ops (ZMod (2 ^ w)) :=
  { zero := 0, add := (· + ·), mul := (· * ·),
    div := fun a b => ((Int.tdiv (sval w a) (sval w b) : Int) : ZMod (2 ^ w)),
    ofCount := fun n => (n : ZMod (2 ^ w)), undef := 0 }

/-- The unbounded bigint domain in which `dot` accumulates for the 64-bit
kinds (products and the running sum are never stored back, so they do not
wrap). -/
def bigintOps : Ops ℤ :=
  { zero := 0, add := (· + ·), mul := (· * ·), div := Int.tdiv,
    ofCount := fun n => (n : ℤ), undef := 0 }

/-- Spec-side definition (the refinement target for the dot claim), built
from the spec's words rather than the source: the elementwise products over
the cell sequence in column-major order (outer index = column, inner index =
row), left-accumulated starting from the domain's zero. -/
def specColMajorDot (K : Ops α) (a b : Matrix α) : α :=
  (((List.range a.nCols).map (fun j => (List.range a.nRows).map (fun i => (i, j)))).flatten).foldl
    (fun acc p => K.add acc (K.mul (a.item K p.1 p.2) (b.item K p.1 p.2))) K.zero

/-- Element-wise equality in the sense of the spec: same shape and the same
value at every in-range `(r, c)`. -/
def elemEq (K : Ops α) (a b : Matrix α) : Prop :=
  a.nRows = b.nRows ∧ a.nCols = b.nCols ∧
    ∀ r c, r < b.nRows → c < b.nCols → a.item K r c = b.item K r c

/-! ### Basic list access lemmas -/

lemma getD_congr (l : List α) {j : Nat} (u u' : α) (h : j < l.length) :
    l.getD j u = l.getD j u' := by
  rw [List.getD_eq_getElem?_getD, List.getD_eq_getElem?_getD, List.getElem?_eq_getElem h]
  rfl

lemma getD_set_self (l : List α) {i : Nat} (v u : α) (h : i < l.length) :
    (l.set i v).getD i u = v := by
  simp [List.getD_eq_getElem?_getD, List.getElem?_set, h]

lemma getD_set_ne (l : List α) {i j : Nat} (v u : α) (h : i ≠ j) :
    (l.set i v).getD j u = l.getD j u := by
  simp [List.getD_eq_getElem?_getD, List.getElem?_set, h]

lemma getD_append_left {l₁ l₂ : List α} {n : Nat} (u : α) (h : n < l₁.length) :
    (l₁ ++ l₂).getD n u = l₁.getD n u := by
  simp [List.getD_eq_getElem?_getD, List.getElem?_append_left h]

lemma getD_append_right {l₁ l₂ : List α} {n : Nat} (u : α) (h : l₁.length ≤ n) :
    (l₁ ++ l₂).getD n u = l₂.getD (n - l₁.length) u := by
  simp [List.getD_eq_getElem?_getD, List.getElem?_append_right h]

lemma getD_drop (l : List α) (k p : Nat) (u : α) :
    (l.drop k).getD p u = l.getD (k + p) u := by
  simp [List.getD_eq_getElem?_getD, List.getElem?_drop]

lemma getD_take (l : List α) {k p : Nat} (u : α) (h : p < k) :
    (l.take k).getD p u = l.getD p u := by
  simp [List.getD_eq_getElem?_getD, List.getElem?_take, h]

lemma getD_replicate {n p : Nat} (a u : α) (h : p < n) :
    (List.replicate n a).getD p u = a := by
  simp [List.getD_eq_getElem?_getD, List.getElem?_replicate, h]

/-! ### tset lemmas -/

lemma tset_length (dst : List α) (off : Nat) (src : List α) :
    (tset dst off src).length = dst.length := by
  unfold tset
  split
  · rename_i h
    simp only [List.length_append, List.length_take, List.length_drop]
    omega
  · rfl

lemma tset_getD_lt (dst : List α) {off : Nat} (src : List α) {p : Nat} (u : α) (h : p < off) :
    (tset dst off src).getD p u = dst.getD p u := by
  unfold tset
  split
  · rename_i hfit
    have hlen : (dst.take off).length = off := by
      simp only [List.length_take]; omega
    rw [getD_append_left u (by simp only [List.length_append, hlen]; omega)]
    rw [getD_append_left u (by rw [hlen]; exact h)]
    exact getD_take dst u h
  · rfl

lemma tset_getD_mid (dst : List α) {off : Nat} (src : List α) {j : Nat} (u : α)
    (hfit : off + src.length ≤ dst.length) (hj : j < src.length) :
    (tset dst off src).getD (off + j) u = src.getD j u := by
  unfold tset
  rw [if_pos hfit]
  have hlen : (dst.take off).length = off := by
    simp only [List.length_take]; omega
  rw [getD_append_left u (by simp only [List.length_append, hlen]; omega)]
  rw [getD_append_right u (by rw [hlen]; omega)]
  rw [hlen]
  rw [show off + j - off = j by omega]

lemma tset_getD_ge (dst : List α) {off : Nat} (src : List α) {p : Nat} (u : α)
    (h : off + src.length ≤ p) :
    (tset dst off src).getD p u = dst.getD p u := by
  unfold tset
  split
  · rename_i hfit
    have hlen : (dst.take off).length = off := by
      simp only [List.length_take]; omega
    rw [getD_append_right u (by simp only [List.length_append, hlen]; omega)]
    rw [getD_drop]
    congr 1
    simp only [List.length_append, hlen]
    omega
  · rfl

/-! ### Folded writes at accumulator-independent positions and values -/

lemma foldlSet_length (d : List α) (g : Nat → Nat) (v : Nat → α) (n : Nat) :
    ((List.range n).foldl (fun acc i => acc.set (g i) (v i)) d).length = d.length := by
  induction n with
  | zero => rfl
  | succ k ih =>
      rw [List.range_succ, List.foldl_append]
      simp only [List.foldl_cons, List.foldl_nil, List.length_set]
      exact ih

lemma foldlSet_getD_miss (d : List α) (g : Nat → Nat) (v : Nat → α) {n p : Nat} (u : α)
    (h : ∀ i, i < n → g i ≠ p) :
    ((List.range n).foldl (fun acc i => acc.set (g i) (v i)) d).getD p u = d.getD p u := by
  induction n with
  | zero => rfl
  | succ k ih =>
      rw [List.range_succ, List.foldl_append]
      simp only [List.foldl_cons, List.foldl_nil]
      rw [getD_set_ne _ _ _ (h k (Nat.lt_succ_self k))]
      exact ih (fun i hi => h i (Nat.lt_succ_of_lt hi))

lemma foldlSet_getD_hit (d : List α) (g : Nat → Nat) (v : Nat → α) {n p k : Nat} (u : α)
    (hk : k < n) (hg : g k = p) (hp : p < d.length)
    (hlast : ∀ i, k < i → i < n → g i ≠ p) :
    ((List.range n).foldl (fun acc i => acc.set (g i) (v i)) d).getD p u = v k := by
  induction n with
  | zero => omega
  | succ t ih =>
      rw [List.range_succ, List.foldl_append]
      simp only [List.foldl_cons, List.foldl_nil]
      by_cases hkt : k = t
      · subst hkt
        rw [hg]
        exact getD_set_self _ _ _ (by rw [foldlSet_length]; exact hp)
      · have hkt' : k < t := by omega
        rw [getD_set_ne _ _ _ (hlast t (by omega) (Nat.lt_succ_self t))]
        exact ih hkt' (fun i hi hit => hlast i hi (Nat.lt_succ_of_lt hit))

/-! ### Folded in-place maps over all indices -/

lemma foldlMapAt_length (s : List α) (f : Nat → α → α) (u : α) (n : Nat) :
    ((List.range n).foldl (fun t i => t.set i (f i (t.getD i u))) s).length = s.length := by
  induction n with
  | zero => rfl
  | succ k ih =>
      rw [List.range_succ, List.foldl_append]
      simp only [List.foldl_cons, List.foldl_nil, List.length_set]
      exact ih

lemma foldlMapAt_getD (s : List α) (f : Nat → α → α) (u u' : α) {n : Nat} (hn : n ≤ s.length)
    (j : Nat) :
    ((List.range n).foldl (fun t i => t.set i (f i (t.getD i u))) s).getD j u' =
      if j < n then f j (s.getD j u) else s.getD j u' := by
  induction n with
  | zero => simp
  | succ k ih =>
      rw [List.range_succ, List.foldl_append]
      simp only [List.foldl_cons, List.foldl_nil]
      have hk : k ≤ s.length := by omega
      by_cases hjk : j = k
      · subst hjk
        have hread : ((List.range j).foldl (fun t i => t.set i (f i (t.getD i u))) s).getD j u
            = s.getD j u := by
          rw [getD_congr _ u u' (by rw [foldlMapAt_length]; omega), ih hk]
          simp only [Nat.lt_irrefl, if_false]
          exact getD_congr s u' u (by omega)
        rw [hread, getD_set_self _ _ _ (by rw [foldlMapAt_length]; omega)]
        simp
      · rw [getD_set_ne _ _ _ (fun hh => hjk hh.symm)]
        rw [ih hk]
        by_cases hjk2 : j < k
        · rw [if_pos hjk2, if_pos (by omega)]
        · rw [if_neg hjk2, if_neg (by omega)]

/-! ### Row/column accumulation folds -/

lemma foldlAccum_length (u : α) (ad : α → α → α) (ent : Nat → Nat → α) (R C : Nat)
    (init : List α) :
    ((List.range R).foldl
      (fun sum i => (List.range C).foldl (fun s j => s.set j (ad (s.getD j u) (ent i j))) sum)
      init).length = init.length := by
  induction R with
  | zero => rfl
  | succ t ih =>
      rw [List.range_succ, List.foldl_append]
      simp only [List.foldl_cons, List.foldl_nil]
      exact (foldlMapAt_length _ (fun j x => ad x (ent t j)) u C).trans ih

lemma foldlAccum_getD (u u' : α) (ad : α → α → α) (ent : Nat → Nat → α) (R C : Nat)
    (init : List α) (hC : init.length = C) {j : Nat} (hj : j < C) :
    ((List.range R).foldl
      (fun sum i => (List.range C).foldl (fun s j => s.set j (ad (s.getD j u) (ent i j))) sum)
      init).getD j u' =
      (List.range R).foldl (fun a i => ad a (ent i j)) (init.getD j u') := by
  induction R with
  | zero => rfl
  | succ t ih =>
      simp only [List.range_succ, List.foldl_append, List.foldl_cons, List.foldl_nil]
      have hlen : ((List.range t).foldl
          (fun sum i => (List.range C).foldl (fun s j => s.set j (ad (s.getD j u) (ent i j))) sum)
          init).length = C := by
        rw [foldlAccum_length u ad ent t C init]; exact hC
      have h2 := foldlMapAt_getD
        ((List.range t).foldl
          (fun sum i => (List.range C).foldl (fun s j => s.set j (ad (s.getD j u) (ent i j))) sum)
          init)
        (fun j x => ad x (ent t j)) u u' (le_of_eq hlen.symm) j
      refine h2.trans ?_
      rw [if_pos hj]
      congr 1
      rw [getD_congr _ u u' (by rw [hlen]; exact hj)]
      exact ih

lemma rowSum_length (K : Ops α) (m : Matrix α) : (m.rowSum K).length = m.nCols := by
  unfold Matrix.rowSum
  exact (foldlAccum_length K.undef K.add (fun i j => m.data.getD (i * m.nCols + j) K.undef)
    m.nRows m.nCols (List.replicate m.nCols K.zero)).trans (List.length_replicate _ _)

lemma rowSum_getD (K : Ops α) (m : Matrix α) {j : Nat} (u' : α) (hj : j < m.nCols) :
    (m.rowSum K).getD j u' =
      (List.range m.nRows).foldl
        (fun a i => K.add a (m.data.getD (i * m.nCols + j) K.undef)) K.zero := by
  unfold Matrix.rowSum
  have h := foldlAccum_getD K.undef u' K.add (fun i j => m.data.getD (i * m.nCols + j) K.undef)
    m.nRows m.nCols (List.replicate m.nCols K.zero) (List.length_replicate _ _) hj
  refine h.trans ?_
  rw [getD_replicate K.zero u' hj]

lemma colSum_length (K : Ops α) (m : Matrix α) : (m.colSum K).length = m.nRows := by
  unfold Matrix.colSum
  exact (foldlAccum_length K.undef K.add (fun i j => m.item K j i)
    m.nCols m.nRows (List.replicate m.nRows K.zero)).trans (List.length_replicate _ _)

lemma colSum_getD (K : Ops α) (m : Matrix α) {j : Nat} (u' : α) (hj : j < m.nRows) :
    (m.colSum K).getD j u' =
      (List.range m.nCols).foldl (fun a i => K.add a (m.item K j i)) K.zero := by
  unfold Matrix.colSum
  have h := foldlAccum_getD K.undef u' K.add (fun i j => m.item K j i)
    m.nCols m.nRows (List.replicate m.nRows K.zero) (List.length_replicate _ _) hj
  refine h.trans ?_
  rw [getD_replicate K.zero u' hj]

/-! ### Means as entrywise division of the sums -/

lemma foldlDiv_eq_map (s : List α) (g : α → α) (u : α) :
    (List.range s.length).foldl (fun t i => t.set i (g (t.getD i u))) s = s.map g := by
  have hlen : ((List.range s.length).foldl
      (fun t i => t.set i ((fun (_ : Nat) x => g x) i (t.getD i u))) s).length = s.length :=
    foldlMapAt_length s (fun _ x => g x) u s.length
  apply List.ext_getElem
  · rw [List.length_map]
    exact hlen
  · intro j h1 h2
    have h3 : j < s.length := by rw [List.length_map] at h2; exact h2
    have h4 := foldlMapAt_getD s (fun _ x => g x) u u (le_refl s.length) j
    rw [if_pos h3] at h4
    calc ((List.range s.length).foldl (fun t i => t.set i (g (t.getD i u))) s)[j]
        = ((List.range s.length).foldl (fun t i => t.set i (g (t.getD i u))) s).getD j u := by
          rw [List.getD_eq_getElem?_getD, List.getElem?_eq_getElem h1]; rfl
      _ = g (s.getD j u) := h4
      _ = g s[j] := by rw [List.getD_eq_getElem?_getD, List.getElem?_eq_getElem h3]; rfl
      _ = (s.map g)[j] := (List.getElem_map _).symm

lemma rowMean_eq (K : Ops α) (m : Matrix α) :
    m.rowMean K = (m.rowSum K).map (fun x => K.div x (K.ofCount m.nRows)) := by
  unfold Matrix.rowMean
  exact foldlDiv_eq_map (m.rowSum K) (fun x => K.div x (K.ofCount m.nRows)) K.undef

lemma colMean_eq (K : Ops α) (m : Matrix α) :
    m.colMean K = (m.colSum K).map (fun x => K.div x (K.ofCount m.nCols)) := by
  unfold Matrix.colMean
  exact foldlDiv_eq_map (m.colSum K) (fun x => K.div x (K.ofCount m.nCols)) K.undef

/-! ### List sums and double sums -/

lemma idx_lt {i j R C : Nat} (hi : i < R) (hj : j < C) : i * C + j < R * C := by
  have h1 : (i + 1) * C = i * C + C := by ring
  have h2 : (i + 1) * C ≤ R * C := Nat.mul_le_mul_right C hi
  omega

lemma sum_eq_sum_range_getD {β : Type} [AddCommMonoid β] (l : List β) :
    l.sum = ∑ i ∈ Finset.range l.length, l.getD i 0 := by
  induction l with
  | nil => simp
  | cons a t ih =>
      rw [List.sum_cons, List.length_cons, Finset.sum_range_succ']
      simp only [List.getD_cons_succ, List.getD_cons_zero]
      rw [ih]
      exact add_comm _ _

lemma foldl_add_eq_sum {β : Type} [AddCommMonoid β] (f : Nat → β) (n : Nat) (b : β) :
    (List.range n).foldl (fun a i => a + f i) b = b + ∑ i ∈ Finset.range n, f i := by
  induction n with
  | zero => simp
  | succ t ih =>
      simp only [List.range_succ, List.foldl_append, List.foldl_cons, List.foldl_nil]
      rw [ih, Finset.sum_range_succ, add_assoc]

lemma sum_double_of_length {β : Type} [AddCommMonoid β] (l : List β) (R C : Nat)
    (h : l.length = R * C) :
    l.sum = ∑ i ∈ Finset.range R, ∑ j ∈ Finset.range C, l.getD (i * C + j) 0 := by
  induction R generalizing l with
  | zero =>
      have hnil : l = [] := List.eq_nil_of_length_eq_zero (by rw [h]; ring)
      simp [hnil]
  | succ t ih =>
      have hC : C ≤ l.length := by
        rw [h]
        calc C = 1 * C := (one_mul C).symm
          _ ≤ (t + 1) * C := Nat.mul_le_mul_right C (by omega)
      have hlen2 : (l.drop C).length = t * C := by
        rw [List.length_drop, h]
        have : (t + 1) * C = t * C + C := by ring
        omega
      have hsplit : l.sum = (l.take C).sum + (l.drop C).sum := by
        conv_lhs => rw [← List.take_append_drop C l]
        rw [List.sum_append]
      rw [hsplit, ih (l.drop C) hlen2, Finset.sum_range_succ']
      rw [add_comm ((l.take C).sum) _]
      congr 1
      · apply Finset.sum_congr rfl
        intro i _
        apply Finset.sum_congr rfl
        intro j _
        rw [getD_drop]
        congr 1
        ring
      · rw [sum_eq_sum_range_getD]
        have hta : (l.take C).length = C := by rw [List.length_take]; omega
        rw [hta]
        apply Finset.sum_congr rfl
        intro j hjj
        rw [getD_take l (0 : β) (Finset.mem_range.mp hjj)]
        congr 1
        ring

/-- C5: for every matrix whose element kind's read-add-store addition is a
commutative monoid operation (the eight fixed-width integer kinds, where it
is addition in ZMod (2^w) and therefore exact), the sum of the entries of
rowSum equals the sum of the entries of colSum and both equal the sum of all
elements of the matrix; rowSum has length nCols, colSum has length nRows,
and a zero-row (resp. zero-column) matrix yields an all-zero rowSum (resp.
colSum). -/
theorem C5_reduction_consistency {α : Type} [AddCommMonoid α] (K : Ops α)
    (hadd : K.add = fun a b => a + b) (hz : K.zero = 0)
    (m : Matrix α) (hwf : m.data.length = m.nRows * m.nCols) :
    (m.rowSum K).length = m.nCols ∧ (m.colSum K).length = m.nRows ∧
    (m.rowSum K).sum = m.data.sum ∧ (m.colSum K).sum = m.data.sum ∧
    (m.nRows = 0 → m.rowSum K = List.replicate m.nCols (0 : α)) ∧
    (m.nCols = 0 → m.colSum K = List.replicate m.nRows (0 : α)) := by
  have hR := rowSum_length K m
  have hCL := colSum_length K m
  refine ⟨hR, hCL, ?_, ?_, ?_, ?_⟩
  · rw [sum_eq_sum_range_getD (m.rowSum K), hR]
    have hstep : ∀ j ∈ Finset.range m.nCols, (m.rowSum K).getD j 0 =
        ∑ i ∈ Finset.range m.nRows, m.data.getD (i * m.nCols + j) 0 := by
      intro j hj
      have hj' := Finset.mem_range.mp hj
      rw [rowSum_getD K m 0 hj']
      simp only [hadd, hz]
      rw [foldl_add_eq_sum (fun i => m.data.getD (i * m.nCols + j) K.undef) m.nRows 0, zero_add]
      apply Finset.sum_congr rfl
      intro i hi
      exact getD_congr _ _ _ (by rw [hwf]; exact idx_lt (Finset.mem_range.mp hi) hj')
    rw [Finset.sum_congr rfl hstep, Finset.sum_comm]
    exact (sum_double_of_length m.data m.nRows m.nCols hwf).symm
  · rw [sum_eq_sum_range_getD (m.colSum K), hCL]
    have hstep : ∀ j ∈ Finset.range m.nRows, (m.colSum K).getD j 0 =
        ∑ i ∈ Finset.range m.nCols, m.data.getD (j * m.nCols + i) 0 := by
      intro j hj
      have hj' := Finset.mem_range.mp hj
      rw [colSum_getD K m 0 hj']
      simp only [hadd, hz]
      rw [foldl_add_eq_sum (fun i => m.item K j i) m.nCols 0, zero_add]
      apply Finset.sum_congr rfl
      intro i hi
      unfold Matrix.item
      exact getD_congr _ _ _ (by rw [hwf]; exact idx_lt hj' (Finset.mem_range.mp hi))
    rw [Finset.sum_congr rfl hstep]
    exact (sum_double_of_length m.data m.nRows m.nCols hwf).symm
  · intro h0
    unfold Matrix.rowSum
    rw [h0, hz]
    rfl
  · intro h0
    unfold Matrix.colSum
    rw [h0, hz]
    rfl

/-- Witness for C5 at a concrete 2x2 bigint-domain matrix. -/
theorem C5_reduction_consistency_witness :
    ((⟨2, 2, [1, 2, 3, 4]⟩ : Matrix ℤ).rowSum bigintOps).length = 2 ∧
    ((⟨2, 2, [1, 2, 3, 4]⟩ : Matrix ℤ).colSum bigintOps).length = 2 ∧
    ((⟨2, 2, [1, 2, 3, 4]⟩ : Matrix ℤ).rowSum bigintOps).sum =
      (⟨2, 2, [1, 2, 3, 4]⟩ : Matrix ℤ).data.sum ∧
    ((⟨2, 2, [1, 2, 3, 4]⟩ : Matrix ℤ).colSum bigintOps).sum =
      (⟨2, 2, [1, 2, 3, 4]⟩ : Matrix ℤ).data.sum ∧
    ((2 : Nat) = 0 → (⟨2, 2, [1, 2, 3, 4]⟩ : Matrix ℤ).rowSum bigintOps =
      List.replicate 2 (0 : ℤ)) ∧
    ((2 : Nat) = 0 → (⟨2, 2, [1, 2, 3, 4]⟩ : Matrix ℤ).colSum bigintOps =
      List.replicate 2 (0 : ℤ)) :=
  C5_reduction_consistency bigintOps rfl rfl ⟨2, 2, [1, 2, 3, 4]⟩ rfl

/-- C6: rowMean returns rowSum with each entry divided by the row count and
colMean returns colSum with each entry divided by the column count, the
divisor being the count taken in the element kind's arithmetic domain via
ofCount (for the wide kinds u64/i64 this is the BigInt conversion of the
count, never a bounded numeric literal — see uintOps/sintOps).  Stated for
non-empty matrices, where the source's typeof-data[0] bigint test agrees
with the element kind. -/
theorem C6_means (K : Ops α) (m : Matrix α) (_hne : m.data ≠ []) :
    m.rowMean K = (m.rowSum K).map (fun x => K.div x (K.ofCount m.nRows)) ∧
    m.colMean K = (m.colSum K).map (fun x => K.div x (K.ofCount m.nCols)) :=
  ⟨rowMean_eq K m, colMean_eq K m⟩

/-- Witness for C6 at a concrete non-empty u64 matrix. -/
theorem C6_means_witness :
    ((⟨1, 2, [5, 7]⟩ : Matrix (ZMod (2 ^ 64))).data ≠ []) ∧
    ((⟨1, 2, [5, 7]⟩ : Matrix (ZMod (2 ^ 64))).rowMean (uintOps 64) =
      ((⟨1, 2, [5, 7]⟩ : Matrix (ZMod (2 ^ 64))).rowSum (uintOps 64)).map
        (fun x => (uintOps 64).div x ((uintOps 64).ofCount 1)) ∧
     (⟨1, 2, [5, 7]⟩ : Matrix (ZMod (2 ^ 64))).colMean (uintOps 64) =
      ((⟨1, 2, [5, 7]⟩ : Matrix (ZMod (2 ^ 64))).colSum (uintOps 64)).map
        (fun x => (uintOps 64).div x ((uintOps 64).ofCount 2))) :=
  ⟨by simp, C6_means (uintOps 64) ⟨1, 2, [5, 7]⟩ (by simp)⟩

/-- C2: for equal-shaped matrices, dot returns (in the element kind's
arithmetic domain) exactly the sum of all elementwise products accumulated
in column-major order from the domain's zero (the spec-side definition
specColMajorDot); for any shape mismatch it fails with an error instead of
returning a value. -/
theorem C2_dot (K : Ops α) (a b : Matrix α) :
    (b.nRows = a.nRows → b.nCols = a.nCols → a.dot K b = .ok (specColMajorDot K a b)) ∧
    (b.nRows ≠ a.nRows ∨ b.nCols ≠ a.nCols → ∃ e, a.dot K b = .error e) := by
  constructor
  · intro h1 h2
    unfold Matrix.dot
    rw [if_neg (by omega), if_neg (by omega)]
    congr 1
    unfold specColMajorDot
    simp only [List.foldl_flatten, List.foldl_map]
  · intro h
    unfold Matrix.dot
    rcases h with h | h
    · rw [if_pos h]
      exact ⟨_, rfl⟩
    · by_cases h1 : b.nRows = a.nRows
      · rw [if_neg (by omega), if_pos h]
        exact ⟨_, rfl⟩
      · rw [if_pos h1]
        exact ⟨_, rfl⟩

/-- Witness for C2: an equal-shape pair evaluates to the column-major sum,
and a transposed-shape pair fails. -/
theorem C2_dot_witness :
    (⟨1, 2, [1, 2]⟩ : Matrix ℚ).dot ratOps ⟨1, 2, [3, 4]⟩ =
      .ok (specColMajorDot ratOps ⟨1, 2, [1, 2]⟩ ⟨1, 2, [3, 4]⟩) ∧
    (∃ e, (⟨1, 2, [1, 2]⟩ : Matrix ℚ).dot ratOps ⟨2, 1, [3, 4]⟩ = .error e) :=
  ⟨(C2_dot ratOps ⟨1, 2, [1, 2]⟩ ⟨1, 2, [3, 4]⟩).1 rfl rfl,
   (C2_dot ratOps ⟨1, 2, [1, 2]⟩ ⟨2, 1, [3, 4]⟩).2 (Or.inl (by decide))⟩

/-! ### Transpose characterization -/

lemma colAt_length (K : Ops α) (m : Matrix α) (n : Nat) : (m.colAt K n).length = m.nRows := by
  unfold Matrix.colAt
  simp

lemma colAt_getD (K : Ops α) (m : Matrix α) (n : Nat) {j : Nat} (u : α) (hj : j < m.nRows) :
    (m.colAt K n).getD j u = m.data.getD (j * m.nCols + n) K.undef := by
  unfold Matrix.colAt
  rw [List.getD_eq_getElem?_getD, List.getElem?_map, List.getElem?_range hj]
  rfl

lemma T_data_length (K : Ops α) (m : Matrix α) : (m.T K).data.length = m.nRows * m.nCols := by
  unfold Matrix.T
  have h : ∀ n, ((List.range n).foldl (fun acc i => tset acc (i * m.nRows) (m.colAt K i))
      (List.replicate (m.nRows * m.nCols) K.zero)).length = m.nRows * m.nCols := by
    intro n
    induction n with
    | zero => simp
    | succ t ih =>
        simp only [List.range_succ, List.foldl_append, List.foldl_cons, List.foldl_nil,
          tset_length]
        exact ih
  exact h m.nCols

lemma T_getD (K : Ops α) (m : Matrix α) {i j : Nat} (u : α) (hi : i < m.nCols)
    (hj : j < m.nRows) :
    (m.T K).data.getD (i * m.nRows + j) u = m.data.getD (j * m.nCols + i) K.undef := by
  unfold Matrix.T
  have key : ∀ t, t ≤ m.nCols → i < t →
      ((List.range t).foldl (fun acc k => tset acc (k * m.nRows) (m.colAt K k))
        (List.replicate (m.nRows * m.nCols) K.zero)).getD (i * m.nRows + j) u =
      m.data.getD (j * m.nCols + i) K.undef := by
    intro t
    induction t with
    | zero => omega
    | succ s ih =>
        intro hs hit
        simp only [List.range_succ, List.foldl_append, List.foldl_cons, List.foldl_nil]
        by_cases his : i = s
        · subst his
          have hfitlen : ((List.range i).foldl
              (fun acc k => tset acc (k * m.nRows) (m.colAt K k))
              (List.replicate (m.nRows * m.nCols) K.zero)).length = m.nRows * m.nCols := by
            have h : ∀ n, ((List.range n).foldl
                (fun acc k => tset acc (k * m.nRows) (m.colAt K k))
                (List.replicate (m.nRows * m.nCols) K.zero)).length = m.nRows * m.nCols := by
              intro n
              induction n with
              | zero => simp
              | succ t2 ih2 =>
                  simp only [List.range_succ, List.foldl_append, List.foldl_cons,
                    List.foldl_nil, tset_length]
                  exact ih2
            exact h i
          have hfit : i * m.nRows + (m.colAt K i).length ≤ m.nRows * m.nCols := by
            rw [colAt_length]
            have h1 : (i + 1) * m.nRows ≤ m.nCols * m.nRows :=
              Nat.mul_le_mul_right m.nRows hs
            have h2 : (i + 1) * m.nRows = i * m.nRows + m.nRows := by ring
            have h3 : m.nCols * m.nRows = m.nRows * m.nCols := Nat.mul_comm _ _
            omega
          have := tset_getD_mid
            ((List.range i).foldl (fun acc k => tset acc (k * m.nRows) (m.colAt K k))
              (List.replicate (m.nRows * m.nCols) K.zero))
            (m.colAt K i) u (by rw [hfitlen]; exact hfit) (by rw [colAt_length]; exact hj)
          exact this.trans (colAt_getD K m i u hj)
        · have hit' : i < s := by omega
          have hlt : i * m.nRows + j < s * m.nRows := by
            have h1 : (i + 1) * m.nRows ≤ s * m.nRows :=
              Nat.mul_le_mul_right m.nRows hit'
            have h2 : (i + 1) * m.nRows = i * m.nRows + m.nRows := by ring
            omega
          rw [tset_getD_lt _ _ _ hlt]
          exact ih (by omega) hit'
  exact key m.nCols (le_refl _) hi

/-- C4: transposing twice returns a matrix element-wise equal to the
original (same shape, same value at every in-range (r, c)); the transpose
moves storage values without any arithmetic, so this holds for every
element kind (any carrier and operation bundle). -/
theorem C4_double_transpose (K : Ops α) (m : Matrix α) : elemEq K ((m.T K).T K) m := by
  refine ⟨rfl, rfl, ?_⟩
  intro r c hr hc
  show ((m.T K).T K).data.getD (r * m.nCols + c) K.undef = m.item K r c
  have h1 := T_getD K (m.T K) K.undef hr hc
  have h2 := T_getD K m K.undef hc hr
  exact h1.trans h2

/-- Witness for C4 at a concrete 2x3 rational matrix. -/
theorem C4_double_transpose_witness :
    elemEq ratOps (((⟨2, 3, [1, 2, 3, 4, 5, 6]⟩ : Matrix ℚ).T ratOps).T ratOps)
      ⟨2, 3, [1, 2, 3, 4, 5, 6]⟩ :=
  C4_double_transpose ratOps ⟨2, 3, [1, 2, 3, 4, 5, 6]⟩

/-- C10: passing 0 as the explicit end argument of slice behaves exactly
like omitting end (0 is falsy in JS, so the buffer is sliced to its end and
the row count is nRows - start): slice(s, 0) is not the empty matrix a
literal reading of rows [s, 0) would give, but an independent copy of rows
[s, nRows) with shape [nRows - s, nCols]. -/
theorem C10_slice_zero_end (K : Ops α) (m : Matrix α) (s : Nat) (hs : s ≤ m.nRows) :
    m.slice s (some 0) = m.slice s none ∧
    (m.slice s (some 0)).nRows = m.nRows - s ∧
    (m.slice s (some 0)).nCols = m.nCols ∧
    (m.slice s (some 0)).data = m.data.drop (s * m.nCols) ∧
    (s < m.nRows → (m.slice s (some 0)).nRows ≠ 0) ∧
    (∀ i c, i < m.nRows - s → c < m.nCols →
      (m.slice s (some 0)).item K i c = m.item K (s + i) c) := by
  have hdata : (m.slice s (some 0)).data = m.data.drop (s * m.nCols) := by
    by_cases h0 : s = 0
    · subst h0
      simp [Matrix.slice, jsSlice]
    · simp [Matrix.slice, jsSlice, h0]
  refine ⟨rfl, rfl, rfl, hdata, ?_, ?_⟩
  · intro h
    show m.nRows - s ≠ 0
    omega
  · intro i c hi hc
    show (m.slice s (some 0)).data.getD (i * m.nCols + c) K.undef
        = m.data.getD ((s + i) * m.nCols + c) K.undef
    rw [hdata, getD_drop]
    congr 1
    ring

/-- Witness for C10 at a concrete 3x2 matrix with start index 1. -/
theorem C10_slice_zero_end_witness :
    (⟨3, 2, [1, 2, 3, 4, 5, 6]⟩ : Matrix ℚ).slice 1 (some 0) =
      (⟨3, 2, [1, 2, 3, 4, 5, 6]⟩ : Matrix ℚ).slice 1 none ∧
    ((⟨3, 2, [1, 2, 3, 4, 5, 6]⟩ : Matrix ℚ).slice 1 (some 0)).nRows = 3 - 1 ∧
    ((⟨3, 2, [1, 2, 3, 4, 5, 6]⟩ : Matrix ℚ).slice 1 (some 0)).nCols = 2 ∧
    ((⟨3, 2, [1, 2, 3, 4, 5, 6]⟩ : Matrix ℚ).slice 1 (some 0)).data =
      ([1, 2, 3, 4, 5, 6] : List ℚ).drop (1 * 2) ∧
    ((1 : Nat) < 3 → ((⟨3, 2, [1, 2, 3, 4, 5, 6]⟩ : Matrix ℚ).slice 1 (some 0)).nRows ≠ 0) ∧
    (∀ i c, i < 3 - 1 → c < 2 →
      ((⟨3, 2, [1, 2, 3, 4, 5, 6]⟩ : Matrix ℚ).slice 1 (some 0)).item ratOps i c =
        (⟨3, 2, [1, 2, 3, 4, 5, 6]⟩ : Matrix ℚ).item ratOps (1 + i) c) :=
  C10_slice_zero_end ratOps ⟨3, 2, [1, 2, 3, 4, 5, 6]⟩ 1 (by decide)

/-! ### Constructor and mutation preservation -/

lemma setCol_fields (K : Ops α) (m : Matrix α) (c : Nat) (val : List α) :
    (m.setCol K c val).nRows = m.nRows ∧ (m.setCol K c val).nCols = m.nCols ∧
    (m.setCol K c val).data.length = m.data.length := by
  unfold Matrix.setCol
  have h : ∀ (ns : List Nat) (mm : Matrix α),
      ((ns.foldl (fun acc i =>
        { acc with data := acc.data.set (i * m.nCols + c) (val.getD i K.undef) }) mm).nRows
          = mm.nRows ∧
       (ns.foldl (fun acc i =>
        { acc with data := acc.data.set (i * m.nCols + c) (val.getD i K.undef) }) mm).nCols
          = mm.nCols ∧
       (ns.foldl (fun acc i =>
        { acc with data := acc.data.set (i * m.nCols + c) (val.getD i K.undef) }) mm).data.length
          = mm.data.length) := by
    intro ns
    induction ns with
    | nil => exact fun mm => ⟨rfl, rfl, rfl⟩
    | cons a t ih =>
        intro mm
        have h2 := ih { mm with data := mm.data.set (a * m.nCols + c) (val.getD a K.undef) }
        refine ⟨h2.1, h2.2.1, h2.2.2.trans ?_⟩
        exact List.length_set _ _ _
  exact h (List.range m.nRows) m

lemma applyMut_fields (K : Ops α) (m : Matrix α) (mu : Mutation α) :
    (applyMut K m mu).nRows = m.nRows ∧ (applyMut K m mu).nCols = m.nCols ∧
    (applyMut K m mu).data.length = m.data.length := by
  cases mu with
  | cell r c v => exact ⟨rfl, rfl, List.length_set _ _ _⟩
  | add r c v => exact ⟨rfl, rfl, List.length_set _ _ _⟩
  | rowM r val =>
      show ((m.setRow r val).toOption.getD m).nRows = m.nRows ∧
        ((m.setRow r val).toOption.getD m).nCols = m.nCols ∧
        ((m.setRow r val).toOption.getD m).data.length = m.data.length
      unfold Matrix.setRow
      split
      · exact ⟨rfl, rfl, tset_length _ _ _⟩
      · exact ⟨rfl, rfl, rfl⟩
  | colM c val => exact setCol_fields K m c val

lemma make_wf (K : Ops α) (arg : CtorArg α) (m0 : Matrix α)
    (hws : arg.wellShaped) (hok : Matrix.make K arg = .ok m0) :
    m0.data.length = m0.nRows * m0.nCols := by
  cases arg with
  | view data shape =>
      cases shape with
      | none => simp [Matrix.make] at hok
      | some rc =>
          obtain ⟨r, c?⟩ := rc
          cases c? with
          | some c =>
              simp only [Matrix.make, Except.ok.injEq] at hok
              subst hok
              exact hws
          | none =>
              simp only [Matrix.make, Except.ok.injEq] at hok
              subst hok
              exact (Nat.mul_div_cancel' hws.2).symm
  | dtypeTag shape =>
      cases shape with
      | none => simp [Matrix.make] at hok
      | some rc =>
          obtain ⟨r, c?⟩ := rc
          cases c? with
          | some c =>
              simp only [Matrix.make, Except.ok.injEq] at hok
              subst hok
              exact List.length_replicate _ _
          | none => simp [Matrix.make] at hok
  | nested rows hasDType =>
      cases hasDType with
      | false => simp [Matrix.make] at hok
      | true =>
          cases rows with
          | nil => simp [Matrix.make] at hok
          | cons r0 rest =>
              simp only [Matrix.make, if_neg, Except.ok.injEq, Bool.true_eq_false,
                not_false_iff] at hok
              subst hok
              show (r0 :: rest).flatten.length = (r0 :: rest).length * r0.length
              rw [List.length_flatten]
              have hall : ∀ x ∈ (r0 :: rest).map List.length, x = r0.length := by
                intro x hx
                obtain ⟨row, hrow, hlen⟩ := List.mem_map.mp hx
                rw [← hlen]
                exact hws row hrow
              rw [List.sum_eq_card_nsmul _ _ hall, List.length_map]
              simp [Nat.smul_one_eq_cast]
  | matrixLike data rc =>
      obtain ⟨r, c?⟩ := rc
      cases c? with
      | some c =>
          simp only [Matrix.make, Except.ok.injEq] at hok
          subst hok
          exact hws
      | none =>
          simp only [Matrix.make, Except.ok.injEq] at hok
          subst hok
          exact (Nat.mul_div_cancel' hws.2).symm

lemma item_eq_row_getD (K : Ops α) (m : Matrix α) {r c : Nat} (hc : c < m.nCols) :
    m.item K r c = (m.row r).getD c K.undef := by
  unfold Matrix.item Matrix.row jsSlice
  rw [getD_drop]
  rw [getD_take m.data K.undef (show r * m.nCols + c < (r + 1) * m.nCols by
    have h2 : (r + 1) * m.nCols = r * m.nCols + m.nCols := by ring
    omega)]

/-- C1 (amended): for every matrix built by the public constructor from a
shape-consistent input (wrap/MatrixLike modes: buffer length equal to
rows*cols, with exact divisibility when the column count is derived; convert
mode: rectangular nested rows; allocate mode: always) and any sequence of
public in-place mutations, the flat buffer length equals nRows * nCols, and
the element at (r, c) — read by item from flat offset r*nCols + c — is
entry c of row r (row-major layout). -/
theorem C1_invariant (K : Ops α) (arg : CtorArg α) (m0 : Matrix α)
    (hws : arg.wellShaped) (hok : Matrix.make K arg = .ok m0) (muts : List (Mutation α)) :
    ((muts.foldl (applyMut K) m0).data.length =
      (muts.foldl (applyMut K) m0).nRows * (muts.foldl (applyMut K) m0).nCols) ∧
    (∀ r c, r < (muts.foldl (applyMut K) m0).nRows →
      c < (muts.foldl (applyMut K) m0).nCols →
      (muts.foldl (applyMut K) m0).item K r c =
        ((muts.foldl (applyMut K) m0).row r).getD c K.undef) := by
  have hpres : ∀ (ms : List (Mutation α)) (mm : Matrix α),
      (ms.foldl (applyMut K) mm).nRows = mm.nRows ∧
      (ms.foldl (applyMut K) mm).nCols = mm.nCols ∧
      (ms.foldl (applyMut K) mm).data.length = mm.data.length := by
    intro ms
    induction ms with
    | nil => exact fun mm => ⟨rfl, rfl, rfl⟩
    | cons a t ih =>
        intro mm
        have h1 := applyMut_fields K mm a
        have h3 := ih (applyMut K mm a)
        exact ⟨h3.1.trans h1.1, h3.2.1.trans h1.2.1, h3.2.2.trans h1.2.2⟩
  have h0 := make_wf K arg m0 hws hok
  have hp := hpres muts m0
  constructor
  · rw [hp.1, hp.2.1, hp.2.2]
    exact h0
  · intro r c _ hc
    exact item_eq_row_getD K _ (hc)

/-- Counterexample to C1 as stated: the wrap construction mode performs no
length validation, so a length-5 buffer with declared shape [2, 3] yields a
matrix reachable through the public constructor (with no mutations at all)
whose buffer length differs from nRows * nCols. -/
theorem C1_counterexample :
    Matrix.make ratOps (CtorArg.view [1, 2, 3, 4, 5] (some (2, some 3))) =
      Except.ok (⟨2, 3, [1, 2, 3, 4, 5]⟩ : Matrix ℚ) ∧
    ((⟨2, 3, [1, 2, 3, 4, 5]⟩ : Matrix ℚ).data.length ≠
      (⟨2, 3, [1, 2, 3, 4, 5]⟩ : Matrix ℚ).nRows * (⟨2, 3, [1, 2, 3, 4, 5]⟩ : Matrix ℚ).nCols) :=
  ⟨rfl, by decide⟩

/-- Witness for C1 (amended): an allocate-mode construction followed by a
setCell mutation. -/
theorem C1_invariant_witness :
    ((([Mutation.cell 0 1 5].foldl (applyMut ratOps)
        ⟨2, 2, List.replicate 4 0⟩).data.length =
      ([Mutation.cell 0 1 5].foldl (applyMut ratOps)
        ⟨2, 2, List.replicate 4 0⟩).nRows *
      ([Mutation.cell 0 1 5].foldl (applyMut ratOps)
        ⟨2, 2, List.replicate 4 0⟩).nCols) ∧
    (∀ r c, r < ([Mutation.cell 0 1 5].foldl (applyMut ratOps)
        ⟨2, 2, List.replicate 4 0⟩).nRows →
      c < ([Mutation.cell 0 1 5].foldl (applyMut ratOps)
        ⟨2, 2, List.replicate 4 0⟩).nCols →
      ([Mutation.cell 0 1 5].foldl (applyMut ratOps)
        ⟨2, 2, List.replicate 4 0⟩).item ratOps r c =
        (([Mutation.cell 0 1 5].foldl (applyMut ratOps)
          ⟨2, 2, List.replicate 4 0⟩).row r).getD c ratOps.undef)) :=
  C1_invariant ratOps (CtorArg.dtypeTag (some (2, some 2))) ⟨2, 2, List.replicate 4 0⟩
    trivial rfl [Mutation.cell 0 1 5]

/-! ### Row/column overwrite characterization -/

lemma offset_inj {i j k c C : Nat} (hc : c < C) (hj : j < C)
    (he : k * C + c = i * C + j) : k = i ∧ c = j := by
  have hki : k = i := by
    by_contra hne
    rcases Nat.lt_or_ge k i with h | h
    · have h1 : (k + 1) * C ≤ i * C := Nat.mul_le_mul_right C h
      have h2 : (k + 1) * C = k * C + C := by ring
      omega
    · have hik : i < k := by omega
      have h1 : (i + 1) * C ≤ k * C := Nat.mul_le_mul_right C hik
      have h2 : (i + 1) * C = i * C + C := by ring
      omega
  subst hki
  exact ⟨rfl, Nat.add_left_cancel he⟩

lemma setCol_data (K : Ops α) (m : Matrix α) (c : Nat) (val : List α) :
    (m.setCol K c val).data = (List.range m.nRows).foldl
      (fun d i => d.set (i * m.nCols + c) (val.getD i K.undef)) m.data := by
  unfold Matrix.setCol
  have h : ∀ (ns : List Nat) (mm : Matrix α),
      (ns.foldl (fun acc i =>
        { acc with data := acc.data.set (i * m.nCols + c) (val.getD i K.undef) }) mm).data =
      ns.foldl (fun d i => d.set (i * m.nCols + c) (val.getD i K.undef)) mm.data := by
    intro ns
    induction ns with
    | nil => exact fun _ => rfl
    | cons a t ih => intro mm; exact ih _
  exact h (List.range m.nRows) m

/-- C3 (amended): when the supplied array-like has the matching length
(nCols for setRow, nRows for setCol), setRow and setCol overwrite exactly
the targeted row resp. column and leave every other cell unchanged.  The
source performs no length validation and never raises a ShapeMismatch: a
mismatched setRow either spills into subsequent rows or fails with a
RangeError, and a mismatched setCol stores coerced-undefined values (see the
counterexample). -/
theorem C3_set_row_col (K : Ops α) (m : Matrix α)
    (hwf : m.data.length = m.nRows * m.nCols)
    (r c : Nat) (val : List α) (hr : r < m.nRows) (hc : c < m.nCols) :
    (val.length = m.nCols →
      ∃ m2, m.setRow r val = .ok m2 ∧ m2.nRows = m.nRows ∧ m2.nCols = m.nCols ∧
        (∀ i j, i < m.nRows → j < m.nCols →
          m2.item K i j = if i = r then val.getD j K.undef else m.item K i j)) ∧
    (val.length = m.nRows →
      ((m.setCol K c val).nRows = m.nRows ∧ (m.setCol K c val).nCols = m.nCols ∧
        (∀ i j, i < m.nRows → j < m.nCols →
          (m.setCol K c val).item K i j =
            if j = c then val.getD i K.undef else m.item K i j))) := by
  constructor
  · intro hlen
    have hfit : r * m.nCols + val.length ≤ m.data.length := by
      rw [hlen, hwf]
      have h1 : (r + 1) * m.nCols ≤ m.nRows * m.nCols := Nat.mul_le_mul_right m.nCols hr
      have h2 : (r + 1) * m.nCols = r * m.nCols + m.nCols := by ring
      omega
    refine ⟨{ m with data := tset m.data (r * m.nCols) val }, ?_, rfl, rfl, ?_⟩
    · unfold Matrix.setRow
      rw [if_pos hfit]
    · intro i j hi hj
      show (tset m.data (r * m.nCols) val).getD (i * m.nCols + j) K.undef = _
      by_cases hir : i = r
      · subst hir
        rw [if_pos rfl]
        exact tset_getD_mid m.data val K.undef (by rw [hlen] at hfit ⊢; exact hfit)
          (by rw [hlen]; exact hj)
      · rw [if_neg hir]
        rcases Nat.lt_or_ge i r with h | h
        · have hlt : i * m.nCols + j < r * m.nCols := by
            have h1 : (i + 1) * m.nCols ≤ r * m.nCols := Nat.mul_le_mul_right m.nCols h
            have h2 : (i + 1) * m.nCols = i * m.nCols + m.nCols := by ring
            omega
          exact tset_getD_lt m.data val K.undef hlt
        · have hge : r * m.nCols + val.length ≤ i * m.nCols + j := by
            have hri : r < i := by omega
            have h1 : (r + 1) * m.nCols ≤ i * m.nCols := Nat.mul_le_mul_right m.nCols hri
            have h2 : (r + 1) * m.nCols = r * m.nCols + m.nCols := by ring
            omega
          exact tset_getD_ge m.data val K.undef hge
  · intro hlen
    obtain ⟨hf1, hf2, _⟩ := setCol_fields K m c val
    refine ⟨hf1, hf2, ?_⟩
    intro i j hi hj
    have hitem : (m.setCol K c val).item K i j
        = ((List.range m.nRows).foldl
            (fun d k => d.set (k * m.nCols + c) (val.getD k K.undef)) m.data).getD
          (i * (m.setCol K c val).nCols + j) K.undef := by
      unfold Matrix.item
      rw [setCol_data]
    rw [hitem, hf2]
    by_cases hjc : j = c
    · subst hjc
      rw [if_pos rfl]
      exact foldlSet_getD_hit m.data (fun k => k * m.nCols + j) (fun k => val.getD k K.undef)
        K.undef hi rfl (by rw [hwf]; exact idx_lt hi hj)
        (fun k hk1 hk2 he => by
          have := offset_inj hj hj he
          omega)
    · rw [if_neg hjc]
      exact foldlSet_getD_miss m.data (fun k => k * m.nCols + c) (fun k => val.getD k K.undef)
        K.undef (fun k hk he => by
          have := offset_inj hc hj he
          exact hjc (this.2.symm))

/-- Counterexample to C3 as stated: on a 2x2 matrix, setRow with a length-3
array (length 3 differs from nCols = 2) does not fail with a ShapeMismatch
error — it succeeds and also overwrites cell (1,0) of the next row. -/
theorem C3_counterexample :
    (([9, 9, 9] : List ℚ).length ≠ (⟨2, 2, [3, 1, 4, 1]⟩ : Matrix ℚ).nCols) ∧
    (⟨2, 2, [3, 1, 4, 1]⟩ : Matrix ℚ).setRow 0 [9, 9, 9] =
      .ok (⟨2, 2, [9, 9, 9, 1]⟩ : Matrix ℚ) ∧
    (⟨2, 2, [9, 9, 9, 1]⟩ : Matrix ℚ).item ratOps 1 0 ≠
      (⟨2, 2, [3, 1, 4, 1]⟩ : Matrix ℚ).item ratOps 1 0 :=
  ⟨by decide, rfl, by decide⟩

/-- Witness for C3 (amended) on a concrete 2x2 matrix with matching-length
row and column writes. -/
theorem C3_set_row_col_witness :
    (([5, 6] : List ℚ).length = 2 →
      ∃ m2, (⟨2, 2, [3, 1, 4, 1]⟩ : Matrix ℚ).setRow 0 [5, 6] = .ok m2 ∧
        m2.nRows = 2 ∧ m2.nCols = 2 ∧
        (∀ i j, i < 2 → j < 2 →
          m2.item ratOps i j = if i = 0 then ([5, 6] : List ℚ).getD j ratOps.undef
            else (⟨2, 2, [3, 1, 4, 1]⟩ : Matrix ℚ).item ratOps i j)) ∧
    (([5, 6] : List ℚ).length = 2 →
      (((⟨2, 2, [3, 1, 4, 1]⟩ : Matrix ℚ).setCol ratOps 1 [5, 6]).nRows = 2 ∧
       ((⟨2, 2, [3, 1, 4, 1]⟩ : Matrix ℚ).setCol ratOps 1 [5, 6]).nCols = 2 ∧
        (∀ i j, i < 2 → j < 2 →
          ((⟨2, 2, [3, 1, 4, 1]⟩ : Matrix ℚ).setCol ratOps 1 [5, 6]).item ratOps i j =
            if j = 1 then ([5, 6] : List ℚ).getD i ratOps.undef
            else (⟨2, 2, [3, 1, 4, 1]⟩ : Matrix ℚ).item ratOps i j))) :=
  C3_set_row_col ratOps ⟨2, 2, [3, 1, 4, 1]⟩ rfl 0 1 [5, 6] (by decide) (by decide)

/-! ### TF-IDF fit/transform -/

lemma foldlSet_range_eq_map (g : Nat → α) (n : Nat) (z : α) :
    (List.range n).foldl (fun l i => l.set i (g i)) (List.replicate n z) =
      (List.range n).map g := by
  apply List.ext_getElem
  · have h1 := foldlSet_length (List.replicate n z) (fun i => i) g n
    simp only [List.length_replicate] at h1
    simp only [h1, List.length_map, List.length_range]
  · intro j h1 h2
    have hj : j < n := by
      simpa using h2
    have hhit := foldlSet_getD_hit (List.replicate n z) (fun i => i) g z hj rfl
      (by rw [List.length_replicate]; exact hj) (fun i hi1 _ => Nat.ne_of_gt hi1)
    have hL : ((List.range n).foldl (fun l i => l.set i (g i)) (List.replicate n z))[j]
        = ((List.range n).foldl (fun l i => l.set i (g i)) (List.replicate n z)).getD j z := by
      rw [List.getD_eq_getElem?_getD, List.getElem?_eq_getElem h1]
      rfl
    rw [hL, hhit, List.getElem_map]
    congr 1
    simp [List.getElem_range]

lemma fit_idf (log : ℚ → ℚ) (t : TfIdfTransformer) (data : Matrix ℚ) :
    (TfIdfTransformer.fit log t data).idf = some
      ((List.range (data.rowSum ratOps).length).map
        (fun j => log ((data.nRows : ℚ) / (data.rowSum ratOps).getD j 0) + 1)) := by
  unfold TfIdfTransformer.fit
  exact congrArg some
    (foldlSet_range_eq_map
      (fun j => log ((data.nRows : ℚ) / (data.rowSum ratOps).getD j 0) + 1)
      (data.rowSum ratOps).length 0)

/-- C7: fit computes freq as rowSum of the term-frequency matrix (the
per-feature totals across all rows), stores idf[j] = log(nRows / freq[j]) + 1
for every feature j, and returns the (updated) transformer; in particular
for [[1,0,2],[0,1,1]] it computes freq = [1,1,3] and
idf = [log 2 + 1, log 2 + 1, log (2/3) + 1].  The JS Math.log builtin is an
explicit function parameter, and Float64 arithmetic is idealized as exact
rational arithmetic. -/
theorem C7_fit (log : ℚ → ℚ) (t : TfIdfTransformer) (data : Matrix ℚ) :
    ((TfIdfTransformer.fit log t data).idf = some
      ((List.range (data.rowSum ratOps).length).map
        (fun j => log ((data.nRows : ℚ) / (data.rowSum ratOps).getD j 0) + 1))) ∧
    ((⟨2, 3, [1, 0, 2, 0, 1, 1]⟩ : Matrix ℚ).rowSum ratOps = [1, 1, 3]) ∧
    ((TfIdfTransformer.fit log t ⟨2, 3, [1, 0, 2, 0, 1, 1]⟩).idf =
      some [log 2 + 1, log 2 + 1, log (2 / 3) + 1]) := by
  have h2 : (⟨2, 3, [1, 0, 2, 0, 1, 1]⟩ : Matrix ℚ).rowSum ratOps = [1, 1, 3] := by
    simp [Matrix.rowSum, ratOps, List.range_succ, List.getD]
    norm_num
  refine ⟨fit_idf log t data, h2, ?_⟩
  rw [fit_idf log t ⟨2, 3, [1, 0, 2, 0, 1, 1]⟩, h2]
  show some ((List.range 3).map
      (fun j => log ((2 : ℚ) / ([1, 1, 3] : List ℚ).getD j 0) + 1)) = _
  norm_num [List.range_succ]

/-- C8: transform fails with the Uninitialized error when the stored idf
vector is absent (no successful fit yet) and leaves the transformer state
unchanged; after idf has been stored, transform returns
multiplyDiags(matrix, idf), again without touching the state. -/
theorem C8_transform (t : TfIdfTransformer) (data : Matrix ℚ) :
    (t.idf = none →
      t.transform data = (.error "IDF not initialized yet.", t)) ∧
    (∀ v, t.idf = some v →
      t.transform data = (.ok (multiplyDiags ratOps data v), t)) := by
  constructor
  · intro h
    unfold TfIdfTransformer.transform
    rw [h]
  · intro v h
    unfold TfIdfTransformer.transform
    rw [h]

/-- Witness for C8: an unfitted transformer fails, a fitted one scales. -/
theorem C8_transform_witness :
    ((⟨none⟩ : TfIdfTransformer).transform ⟨1, 1, [2]⟩ =
      (.error "IDF not initialized yet.", (⟨none⟩ : TfIdfTransformer))) ∧
    ((⟨some [1]⟩ : TfIdfTransformer).transform ⟨1, 1, [2]⟩ =
      (.ok (multiplyDiags ratOps ⟨1, 1, [2]⟩ [1]), (⟨some [1]⟩ : TfIdfTransformer))) :=
  ⟨(C8_transform ⟨none⟩ ⟨1, 1, [2]⟩).1 rfl,
   (C8_transform ⟨some [1]⟩ ⟨1, 1, [2]⟩).2 [1] rfl⟩

/-! ### multiplyDiags characterization -/

lemma foldl_setCell_row (m : Matrix α) (i : Nat) (v : Nat → α) (ns : List Nat) :
    ns.foldl (fun r j => r.setCell i j (v j)) m =
      { m with data := ns.foldl (fun d j => d.set (i * m.nCols + j) (v j)) m.data } := by
  induction ns generalizing m with
  | nil => rfl
  | cons a t ih =>
      rw [List.foldl_cons, List.foldl_cons]
      rw [ih (m.setCell i a (v a))]
      rfl

lemma multiplyDiags_eq (K : Ops α) (x : Matrix α) (y : List α) :
    multiplyDiags K x y = Matrix.mk x.nRows x.nCols
      ((List.range x.nRows).foldl
        (fun d i => (List.range y.length).foldl
          (fun d2 j => d2.set (i * x.nCols + j) (K.mul (x.item K i j) (y.getD j K.undef))) d)
        (List.replicate x.data.length K.zero)) := by
  unfold multiplyDiags
  have houter : ∀ (ns : List Nat) (mm : Matrix α),
      ns.foldl (fun res i => (List.range y.length).foldl
        (fun r j => r.setCell i j (K.mul (x.item K i j) (y.getD j K.undef))) res) mm =
      Matrix.mk mm.nRows mm.nCols
        (ns.foldl (fun d i => (List.range y.length).foldl
          (fun d2 j => d2.set (i * mm.nCols + j) (K.mul (x.item K i j) (y.getD j K.undef))) d)
          mm.data) := by
    intro ns
    induction ns with
    | nil => intro mm; rfl
    | cons a t ih =>
        intro mm
        rw [List.foldl_cons, List.foldl_cons]
        rw [foldl_setCell_row mm a (fun j => K.mul (x.item K a j) (y.getD j K.undef))
          (List.range y.length)]
        exact ih _
  exact houter (List.range x.nRows) _

lemma mdFoldRows_miss (K : Ops α) (x : Matrix α) (y : List α) (init : List α)
    (rows : List Nat) {p : Nat} (u : α)
    (h : ∀ i ∈ rows, ∀ j, j < y.length → i * x.nCols + j ≠ p) :
    (rows.foldl (fun d i => (List.range y.length).foldl
      (fun d2 j => d2.set (i * x.nCols + j) (K.mul (x.item K i j) (y.getD j K.undef))) d)
      init).getD p u = init.getD p u := by
  induction rows generalizing init with
  | nil => rfl
  | cons a t ih =>
      rw [List.foldl_cons]
      refine (ih _ (fun i hi => h i (List.mem_cons_of_mem a hi))).trans ?_
      exact foldlSet_getD_miss init (fun j => a * x.nCols + j)
        (fun j => K.mul (x.item K a j) (y.getD j K.undef)) u
        (fun j hj => h a (List.mem_cons_self a t) j hj)

lemma mdFoldRows_length (K : Ops α) (x : Matrix α) (y : List α) (init : List α)
    (rows : List Nat) :
    (rows.foldl (fun d i => (List.range y.length).foldl
      (fun d2 j => d2.set (i * x.nCols + j) (K.mul (x.item K i j) (y.getD j K.undef))) d)
      init).length = init.length := by
  induction rows generalizing init with
  | nil => rfl
  | cons a t ih =>
      rw [List.foldl_cons]
      exact (ih _).trans (foldlSet_length init (fun j => a * x.nCols + j)
        (fun j => K.mul (x.item K a j) (y.getD j K.undef)) y.length)

lemma mdFold_getD (K : Ops α) (x : Matrix α) (y : List α)
    (hwf : x.data.length = x.nRows * x.nCols) {r c : Nat} (hr : r < x.nRows)
    (hc : c < x.nCols) (u : α) :
    ((List.range x.nRows).foldl (fun d i => (List.range y.length).foldl
      (fun d2 j => d2.set (i * x.nCols + j) (K.mul (x.item K i j) (y.getD j K.undef))) d)
      (List.replicate x.data.length K.zero)).getD (r * x.nCols + c) u =
      if c < y.length then K.mul (x.item K r c) (y.getD c K.undef) else K.zero := by
  have hpN : r * x.nCols + c < x.data.length := by rw [hwf]; exact idx_lt hr hc
  by_cases hcy : c < y.length
  · rw [if_pos hcy]
    have hsplit : List.range x.nRows =
        List.range (r + 1) ++ (List.range (x.nRows - (r + 1))).map (fun k => (r + 1) + k) := by
      have h1 : x.nRows = (r + 1) + (x.nRows - (r + 1)) := by omega
      conv_lhs => rw [h1]
      exact List.range_add (r + 1) (x.nRows - (r + 1))
    rw [hsplit, List.foldl_append]
    rw [mdFoldRows_miss K x y _ _ u ?later]
    case later =>
      intro i hi j hj he
      obtain ⟨k, _, hk⟩ := List.mem_map.mp hi
      by_cases hjC : j < x.nCols
      · have := offset_inj hjC hc he
        omega
      · have h1 : (r + 1) * x.nCols ≤ i * x.nCols := Nat.mul_le_mul_right x.nCols (by omega)
        have h2 : (r + 1) * x.nCols = r * x.nCols + x.nCols := by ring
        omega
    simp only [List.range_succ, List.foldl_append, List.foldl_cons, List.foldl_nil]
    have hlen : ((List.range r).foldl (fun d i => (List.range y.length).foldl
        (fun d2 j => d2.set (i * x.nCols + j) (K.mul (x.item K i j) (y.getD j K.undef))) d)
        (List.replicate x.data.length K.zero)).length = x.data.length := by
      exact (mdFoldRows_length K x y _ (List.range r)).trans (List.length_replicate _ _)
    exact foldlSet_getD_hit _ (fun j => r * x.nCols + j)
      (fun j => K.mul (x.item K r j) (y.getD j K.undef)) u hcy rfl
      (by rw [hlen]; exact hpN)
      (fun j hj1 _ he => by
        have := Nat.add_left_cancel he
        omega)
  · rw [if_neg hcy]
    rw [mdFoldRows_miss K x y _ _ u ?miss]
    case miss =>
      intro i hi j hj he
      have hjC : j < x.nCols := by omega
      have := offset_inj hjC hc he
      omega
    exact getD_replicate K.zero u hpN

/-- C9: for x of shape m x n, multiplyDiags(x, y) returns a new m x n matrix
with result[i][j] = x[i][j] * y[j] for every i < m and j < min(n, y.length);
when y is shorter than n the remaining columns keep the result buffer's
initial zero fill, when y is longer than n the extra entries do not affect
the final result (the spilled writes of each row are overwritten by the next
row's in-range writes, and the last row's spill falls outside the buffer);
and multiplyDiags(x, onesVector) with a length-n ones vector equals x
element-for-element. -/
theorem C9_multiplyDiags (K : Ops α) (x : Matrix α) (y : List α)
    (hwf : x.data.length = x.nRows * x.nCols) :
    (multiplyDiags K x y).nRows = x.nRows ∧ (multiplyDiags K x y).nCols = x.nCols ∧
    (∀ i j, i < x.nRows → j < x.nCols →
      (multiplyDiags K x y).item K i j =
        if j < y.length then K.mul (x.item K i j) (y.getD j K.undef) else K.zero) ∧
    (∀ one, (∀ a, K.mul a one = a) → y = List.replicate x.nCols one →
      elemEq K (multiplyDiags K x y) x) := by
  have hshape : (multiplyDiags K x y).nRows = x.nRows ∧ (multiplyDiags K x y).nCols = x.nCols := by
    rw [multiplyDiags_eq]
    exact ⟨rfl, rfl⟩
  have hitem : ∀ i j, i < x.nRows → j < x.nCols →
      (multiplyDiags K x y).item K i j =
        if j < y.length then K.mul (x.item K i j) (y.getD j K.undef) else K.zero := by
    intro i j hi hj
    rw [multiplyDiags_eq]
    exact mdFold_getD K x y hwf hi hj K.undef
  refine ⟨hshape.1, hshape.2, hitem, ?_⟩
  intro one hone hy
  refine ⟨hshape.1, hshape.2, ?_⟩
  intro r c hr hc
  rw [hitem r c hr hc]
  have hylen : c < y.length := by rw [hy, List.length_replicate]; exact hc
  rw [if_pos hylen]
  rw [hy, getD_replicate one K.undef hc]
  exact hone _

/-- Witness for C9 at a 2x2 matrix with a longer-than-nCols vector. -/
theorem C9_multiplyDiags_witness :
    (multiplyDiags ratOps ⟨2, 2, [1, 2, 3, 4]⟩ [10, 20, 30]).nRows = 2 ∧
    (multiplyDiags ratOps ⟨2, 2, [1, 2, 3, 4]⟩ [10, 20, 30]).nCols = 2 ∧
    (∀ i j, i < 2 → j < 2 →
      (multiplyDiags ratOps ⟨2, 2, [1, 2, 3, 4]⟩ [10, 20, 30]).item ratOps i j =
        if j < ([10, 20, 30] : List ℚ).length then
          ratOps.mul ((⟨2, 2, [1, 2, 3, 4]⟩ : Matrix ℚ).item ratOps i j)
            (([10, 20, 30] : List ℚ).getD j ratOps.undef)
        else ratOps.zero) ∧
    (∀ one, (∀ a, ratOps.mul a one = a) → ([10, 20, 30] : List ℚ) = List.replicate 2 one →
      elemEq ratOps (multiplyDiags ratOps ⟨2, 2, [1, 2, 3, 4]⟩ [10, 20, 30])
        ⟨2, 2, [1, 2, 3, 4]⟩) :=
  C9_multiplyDiags ratOps ⟨2, 2, [1, 2, 3, 4]⟩ [10, 20, 30] rfl

end Preprocess
